import Mathlib

/-!
Shallow embedding of `src/displaylcd.c` (a Linux kernel module driving a
16x2 HD44780 display over six GPIO lines in 4-bit mode).

The hardware-facing functions (`lcd_nibble`, `lcd_byte`, `lcd_cls`,
`lcd_pos`, `lcd_print`) are embedded as pure functions returning the list
of side effects (pin writes and delays) they perform, in order.  The
channel dispatcher `device_write` is embedded as a pure function from the
minor number, the current contents of the 32-byte `message` buffer, the
user buffer and the length to the emitted event trace, the returned byte
count and the new `message` contents.

On top of the trace we define an observer `ctrlRun` that models the
HD44780 latching discipline described in its datasheet: the controller
samples RS and the four data lines on every falling edge of EN, pairs
consecutive nibbles into bytes (high nibble first), and records each byte
as a command (RS low) or a character (RS high).  This is the "mocked pin
interface" view: it lets us state which bytes a trace transmits.
-/

/-- The six GPIO lines used by the driver (see the `#define`s and the
`pins[]` array in the source). -/
inductive Pin
  | RS
  | EN
  | DB4
  | DB5
  | DB6
  | DB7
deriving DecidableEq

/-- One side effect performed by the driver: a `gpio_set_value` call on a
line, or a delay (`ndelay`/`udelay`/`mdelay`). -/
inductive Event
  | setPin (p : Pin) (v : Bool)
  | ndelay (n : Nat)
  | udelay (n : Nat)
  | mdelay (n : Nat)
deriving DecidableEq

/-- `lcd_nibble`: raises EN, waits 150 ns, drives DB4..DB7 from bits 0..3
of the argument (a ternary `nibble & mask ? set 1 : set 0` per line),
waits 80 ns, drops EN (the latch edge), waits 10 ns. -/
def lcd_nibble (nibble : Nat) : List Event :=
  [Event.setPin Pin.EN true,
   Event.ndelay 150,
   Event.setPin Pin.DB4 (decide (nibble &&& 1 ≠ 0)),
   Event.setPin Pin.DB5 (decide (nibble &&& 2 ≠ 0)),
   Event.setPin Pin.DB6 (decide (nibble &&& 4 ≠ 0)),
   Event.setPin Pin.DB7 (decide (nibble &&& 8 ≠ 0)),
   Event.ndelay 80,
   Event.setPin Pin.EN false,
   Event.ndelay 10]

/-- `lcd_byte`: high nibble (`byte >> 4`) then low nibble (the full value,
whose upper bits `lcd_nibble` ignores), then `udelay(40)` and RS set high. -/
def lcd_byte (byte : Nat) : List Event :=
  lcd_nibble (byte >>> 4) ++ lcd_nibble byte ++
    [Event.udelay 40, Event.setPin Pin.RS true]

/-- `lcd_cls`: RS low, send byte 0x01 (Clear Display), wait 2 ms. -/
def lcd_cls : List Event :=
  Event.setPin Pin.RS false :: lcd_byte 1 ++ [Event.mdelay 2]

/-- The command byte `lcd_pos` computes from its `unsigned char` argument:
`pos--` (wrapping at 0), `if (pos > 15) pos += 48` (mod 256), `pos |= 0x80`. -/
def posCmdByte (pos : Nat) : Nat :=
  let pos1 := (pos % 256 + 255) % 256
  let pos2 := if pos1 > 15 then (pos1 + 48) % 256 else pos1
  pos2 ||| 128

/-- `lcd_pos`: computes the cursor command byte, puts RS low, sends it. -/
def lcd_pos (pos : Nat) : List Event :=
  Event.setPin Pin.RS false :: lcd_byte (posCmdByte pos)

/-- The loop body of `lcd_print`: `for (x = 0; x < 16; x++)`, returning at
the first zero byte, otherwise `lcd_byte(buffer[x])`.  `fuel` counts the
remaining iterations (16 at entry).  The buffer is modelled as a memory
`Nat → Nat` read byte-wise (hence the `% 256`). -/
def lcd_printAux (buffer : Nat → Nat) (x : Nat) : Nat → List Event
  | 0 => []
  | fuel + 1 =>
    if buffer x % 256 = 0 then []
    else lcd_byte (buffer x % 256) ++ lcd_printAux buffer (x + 1) fuel

/-- `lcd_print`: up to 16 characters, stopping at the first zero byte. -/
def lcd_print (buffer : Nat → Nat) : List Event :=
  lcd_printAux buffer 0 16

/-- The digit test `(c >= '0') && (c <= '9')` on a byte value. -/
def isDigitByte (b : Nat) : Bool :=
  decide (48 ≤ b) && decide (b ≤ 57)

/-- The stores `device_write` performs on the `message` array for minor 0:
`memcpy(message, buffer, len)` writes indices `0..len-1`, then
`message[len] = 0` writes the terminator. -/
def memcpyStores (buffer : List Nat) (len : Nat) : List (Nat × Nat) :=
  (List.range len).map (fun i => (i, buffer.getD i 0 % 256)) ++ [(len, 0)]

/-- Apply a list of index-value stores to a byte memory, first to last. -/
def applyStores (msg : Nat → Nat) (stores : List (Nat × Nat)) : Nat → Nat :=
  stores.foldl (fun m s => fun i => if i = s.1 then s.2 else m i) msg

/-- Result of one `device_write` call: the emitted event trace, the byte
count returned to the caller, and the new contents of `message`. -/
structure WriteOut where
  events : List Event
  ret : Nat
  msg : Nat → Nat

/-- The two-byte-path position value as `device_write` computes it:
`pos = 0`; if `buffer[0]` is a digit, `pos = buffer[0] - '0'`; if
`buffer[1]` is a digit, `pos = pos * 10 + (buffer[1] - '0')`.  Note the
multiplication by 10 happens only when `buffer[1]` is a digit. -/
def codePosValue (b0 b1 : Nat) : Nat :=
  let pos0 := if isDigitByte b0 then b0 - 48 else 0
  if isDigitByte b1 then pos0 * 10 + (b1 - 48) else pos0

/-- `device_write`: rejects lengths over 30 outright; minor 1 clears; minor
2 parses a position from the first one or two bytes; minor 0 copies the
payload into `message`, terminates it and prints it.  Always returns `len`. -/
def device_write (minor : Nat) (msg : Nat → Nat) (buffer : List Nat)
    (len : Nat) : WriteOut :=
  if len > 30 then ⟨[], len, msg⟩
  else if minor = 1 then ⟨lcd_cls, len, msg⟩
  else if minor = 2 then
    if len = 0 then ⟨[], len, msg⟩
    else if len = 1 then
      let b0 := buffer.getD 0 0 % 256
      if isDigitByte b0 then ⟨lcd_pos (b0 - 48), len, msg⟩
      else ⟨[], len, msg⟩
    else
      let b0 := buffer.getD 0 0 % 256
      let b1 := buffer.getD 1 0 % 256
      let pos := codePosValue b0 b1
      if pos ≠ 0 ∧ pos ≤ 32 then ⟨lcd_pos pos, len, msg⟩
      else ⟨[], len, msg⟩
  else if minor = 0 then
    let msg2 := applyStores msg (memcpyStores buffer len)
    ⟨lcd_print msg2, len, msg2⟩
  else ⟨[], len, msg⟩

/-! ## The controller-side observer -/

/-- Modelled from the spec: the HD44780 controller as observer of the pin
trace.  It tracks the level of each line, latches the four data lines on
every falling edge of EN, pairs consecutive latched nibbles into a byte
(high nibble first), and appends the byte to `cmds` when RS is low or to
`chars` when RS is high.  `pending` holds a high nibble awaiting its low
half. -/
structure Ctrl where
  rs : Bool
  en : Bool
  db4 : Bool
  db5 : Bool
  db6 : Bool
  db7 : Bool
  pending : Option Nat
  cmds : List Nat
  chars : List Nat
deriving DecidableEq

/-- The 4-bit value currently on the data lines, DB4 least significant. -/
def dataNibble (c : Ctrl) : Nat :=
  (cond c.db4 1 0) + (cond c.db5 2 0) + (cond c.db6 4 0) + (cond c.db7 8 0)

/-- One observer step: pin writes update the line levels; a falling edge on
EN latches the data nibble. -/
def ctrlStep (c : Ctrl) (e : Event) : Ctrl :=
  match e with
  | Event.setPin Pin.RS v => { c with rs := v }
  | Event.setPin Pin.DB4 v => { c with db4 := v }
  | Event.setPin Pin.DB5 v => { c with db5 := v }
  | Event.setPin Pin.DB6 v => { c with db6 := v }
  | Event.setPin Pin.DB7 v => { c with db7 := v }
  | Event.setPin Pin.EN v =>
    if c.en = true ∧ v = false then
      match c.pending with
      | none => { c with en := v, pending := some (dataNibble c) }
      | some hi =>
        if c.rs then
          { c with en := v, pending := none,
                   chars := c.chars ++ [hi * 16 + dataNibble c] }
        else
          { c with en := v, pending := none,
                   cmds := c.cmds ++ [hi * 16 + dataNibble c] }
    else { c with en := v }
  | _ => c

/-- Run the observer over a whole trace. -/
def ctrlRun (c : Ctrl) (tr : List Event) : Ctrl :=
  tr.foldl ctrlStep c

/-- All-lines-low observer state (the GPIOs are requested with
`GPIOF_OUT_INIT_LOW`), no pending nibble, nothing received. -/
def ctrl0 : Ctrl :=
  ⟨false, false, false, false, false, false, none, [], []⟩

/-! ## Trace observations used by the frame and mode claims -/

/-- The level of line `p` after a trace, starting from level `init`. -/
def levelAfter (p : Pin) (tr : List Event) (init : Bool) : Bool :=
  tr.foldl
    (fun s e =>
      match e with
      | Event.setPin q v => if q = p then v else s
      | _ => s)
    init

/-- The pin writes of a trace, in order, with the delays erased. -/
def pinWrites (tr : List Event) : List (Pin × Bool) :=
  tr.filterMap
    (fun e =>
      match e with
      | Event.setPin p v => some (p, v)
      | _ => none)

/-- The nibble the observer latches when `lcd_nibble v` drops EN. -/
def nibbleVal (v : Nat) : Nat :=
  (cond (decide (v &&& 1 ≠ 0)) 1 0) + (cond (decide (v &&& 2 ≠ 0)) 2 0) +
    (cond (decide (v &&& 4 ≠ 0)) 4 0) + (cond (decide (v &&& 8 ≠ 0)) 8 0)

/-- The position value claimed by the spec for the two-byte path of the
position channel: `digit(byte0) * 10 + digit(byte1)`, a non-digit byte
contributing 0. -/
def claimPosValue (b0 b1 : Nat) : Nat :=
  (if isDigitByte b0 then b0 - 48 else 0) * 10 +
    (if isDigitByte b1 then b1 - 48 else 0)

/-- The buffer holding "HELLO" followed by a zero terminator. -/
def helloBuf (i : Nat) : Nat :=
  [72, 69, 76, 76, 79].getD i 0

/-- A 20-byte buffer with no zero byte among its first 20 entries. -/
def buf20 (i : Nat) : Nat :=
  if i < 20 then i + 65 else 0

/-! ## Observer lemmas -/

set_option maxRecDepth 4096 in
theorem nibbleVal_recon (b : Nat) (hb : b < 256) :
    nibbleVal (b >>> 4) * 16 + nibbleVal b = b := by
  revert hb
  revert b
  decide

theorem ctrlRun_nibble_none (rs d4 d5 d6 d7 : Bool) (cmds chars : List Nat)
    (v : Nat) :
    ctrlRun ⟨rs, false, d4, d5, d6, d7, none, cmds, chars⟩ (lcd_nibble v) =
      ⟨rs, false, decide (v &&& 1 ≠ 0), decide (v &&& 2 ≠ 0),
       decide (v &&& 4 ≠ 0), decide (v &&& 8 ≠ 0),
       some (nibbleVal v), cmds, chars⟩ := by
  simp [ctrlRun, lcd_nibble, ctrlStep, dataNibble, nibbleVal]

theorem ctrlRun_nibble_some (rs d4 d5 d6 d7 : Bool) (hi : Nat)
    (cmds chars : List Nat) (v : Nat) :
    ctrlRun ⟨rs, false, d4, d5, d6, d7, some hi, cmds, chars⟩ (lcd_nibble v) =
      ⟨rs, false, decide (v &&& 1 ≠ 0), decide (v &&& 2 ≠ 0),
       decide (v &&& 4 ≠ 0), decide (v &&& 8 ≠ 0), none,
       if rs then cmds else cmds ++ [hi * 16 + nibbleVal v],
       if rs then chars ++ [hi * 16 + nibbleVal v] else chars⟩ := by
  cases rs <;>
    simp [ctrlRun, lcd_nibble, ctrlStep, dataNibble, nibbleVal]

theorem ctrlRun_append (c : Ctrl) (t1 t2 : List Event) :
    ctrlRun c (t1 ++ t2) = ctrlRun (ctrlRun c t1) t2 := by
  simp [ctrlRun]

/-- Effect of one `lcd_byte b` on the observer, from any state with EN low
and no pending nibble: the data lines end holding the low nibble of `b`,
RS ends high, and `b` is appended to `cmds` when RS was low at entry, to
`chars` when it was high. -/
theorem ctrlRun_byte (rs d4 d5 d6 d7 : Bool) (cmds chars : List Nat)
    (b : Nat) (hb : b < 256) :
    ctrlRun ⟨rs, false, d4, d5, d6, d7, none, cmds, chars⟩ (lcd_byte b) =
      ⟨true, false, decide (b &&& 1 ≠ 0), decide (b &&& 2 ≠ 0),
       decide (b &&& 4 ≠ 0), decide (b &&& 8 ≠ 0), none,
       if rs then cmds else cmds ++ [b],
       if rs then chars ++ [b] else chars⟩ := by
  rw [lcd_byte, ctrlRun_append, ctrlRun_append, ctrlRun_nibble_none,
    ctrlRun_nibble_some, nibbleVal_recon b hb]
  cases rs <;> simp [ctrlRun, ctrlStep]

/-- Effect of the `lcd_print` loop on the observer, from any state with RS
high, EN low and no pending nibble: it appends to `chars` the bytes read
from `x` on, cut at the first zero byte and at `fuel` reads, and leaves
`cmds`, RS, EN and `pending` unchanged (only the data lines vary). -/
theorem ctrlRun_printAux_run (buf : Nat → Nat) :
    ∀ (fuel x : Nat) (d4 d5 d6 d7 : Bool) (cmds chars : List Nat),
    ∃ e4 e5 e6 e7 : Bool,
      ctrlRun ⟨true, false, d4, d5, d6, d7, none, cmds, chars⟩
          (lcd_printAux buf x fuel) =
        ⟨true, false, e4, e5, e6, e7, none, cmds,
         chars ++ ((List.range' x fuel).map fun i => buf i % 256).takeWhile
           (fun b => b != 0)⟩ := by
  intro fuel
  induction fuel with
  | zero =>
    intro x d4 d5 d6 d7 cmds chars
    exact ⟨d4, d5, d6, d7, by simp [lcd_printAux, ctrlRun]⟩
  | succ fuel ih =>
    intro x d4 d5 d6 d7 cmds chars
    rw [lcd_printAux]
    by_cases h : buf x % 256 = 0
    · refine ⟨d4, d5, d6, d7, ?_⟩
      simp [h, ctrlRun, List.range'_succ, List.takeWhile]
    · rw [if_neg h, ctrlRun_append,
        ctrlRun_byte true d4 d5 d6 d7 cmds chars (buf x % 256)
          (Nat.mod_lt _ (by norm_num))]
      simp only [if_true]
      obtain ⟨e4, e5, e6, e7, hrun⟩ :=
        ih (x + 1) (decide (buf x % 256 &&& 1 ≠ 0))
          (decide (buf x % 256 &&& 2 ≠ 0)) (decide (buf x % 256 &&& 4 ≠ 0))
          (decide (buf x % 256 &&& 8 ≠ 0)) cmds (chars ++ [buf x % 256])
      refine ⟨e4, e5, e6, e7, ?_⟩
      rw [hrun]
      have hb : (buf x % 256 != 0) = true := by simpa using h
      simp [List.range'_succ, List.takeWhile, hb]

theorem levelAfter_append (p : Pin) (t1 t2 : List Event) (init : Bool) :
    levelAfter p (t1 ++ t2) init = levelAfter p t2 (levelAfter p t1 init) := by
  simp [levelAfter]

theorem levelAfter_rs_byte (b : Nat) (init : Bool) :
    levelAfter Pin.RS (lcd_byte b) init = true := by
  simp [lcd_byte, lcd_nibble, levelAfter]

theorem levelAfter_rs_printAux (buf : Nat → Nat) :
    ∀ (fuel x : Nat), levelAfter Pin.RS (lcd_printAux buf x fuel) true = true := by
  intro fuel
  induction fuel with
  | zero => intro x; simp [lcd_printAux, levelAfter]
  | succ fuel ih =>
    intro x
    rw [lcd_printAux]
    by_cases h : buf x % 256 = 0
    · simp [h, levelAfter]
    · rw [if_neg h, levelAfter_append, levelAfter_rs_byte]
      exact ih (x + 1)

set_option maxRecDepth 4096 in
theorem posCmdByte_valid :
    ∀ p : Nat, p ≤ 32 → 1 ≤ p →
      posCmdByte p = ((p - 1) + (if 16 ≤ p - 1 then 48 else 0)) ||| 128 := by
  decide

theorem posCmdByte_lt (p : Nat) : posCmdByte p < 256 := by
  unfold posCmdByte
  refine Nat.or_lt_two_pow (n := 8) ?_ (by norm_num)
  split <;> exact Nat.mod_lt _ (by norm_num)

theorem ctrlRun_lcd_pos (rs d4 d5 d6 d7 : Bool) (cmds chars : List Nat)
    (p : Nat) :
    (ctrlRun ⟨rs, false, d4, d5, d6, d7, none, cmds, chars⟩ (lcd_pos p)).cmds
      = cmds ++ [posCmdByte p] ∧
    (ctrlRun ⟨rs, false, d4, d5, d6, d7, none, cmds, chars⟩ (lcd_pos p)).chars
      = chars := by
  have hstep :
      ctrlRun ⟨rs, false, d4, d5, d6, d7, none, cmds, chars⟩ (lcd_pos p) =
        ctrlRun ⟨false, false, d4, d5, d6, d7, none, cmds, chars⟩
          (lcd_byte (posCmdByte p)) := by
    simp [lcd_pos, ctrlRun, ctrlStep]
  rw [hstep, ctrlRun_byte false d4 d5 d6 d7 cmds chars _ (posCmdByte_lt p)]
  simp

theorem applyStores_append (msg : Nat → Nat) (s1 s2 : List (Nat × Nat)) :
    applyStores msg (s1 ++ s2) = applyStores (applyStores msg s1) s2 := by
  simp [applyStores]

theorem applyStores_range (f : Nat → Nat) :
    ∀ (n : Nat) (msg : Nat → Nat) (i : Nat),
      applyStores msg ((List.range n).map fun j => (j, f j)) i =
        if i < n then f i else msg i := by
  intro n
  induction n with
  | zero => intro msg i; simp [applyStores]
  | succ n ih =>
    intro msg i
    rw [List.range_succ, List.map_append, applyStores_append]
    simp only [List.map_cons, List.map_nil]
    by_cases h : i = n
    · subst h
      simp [applyStores]
    · have : applyStores (applyStores msg ((List.range n).map fun j => (j, f j)))
          [(n, f n)] i =
          applyStores msg ((List.range n).map fun j => (j, f j)) i := by
        simp [applyStores, h]
      rw [this, ih]
      rcases Nat.lt_trichotomy i n with hlt | heq | hgt
      · simp [hlt, Nat.lt_succ_of_lt hlt]
      · exact absurd heq h
      · have h1 : ¬ i < n := by omega
        have h2 : ¬ i < n + 1 := by omega
        simp [h1, h2]

/-! ## Claims -/

/-- C1: for every position `p` with `1 ≤ p ≤ 32`, a call to `lcd_pos p`
(started from any observer state with EN low and no pending nibble) emits
exactly one command byte, equal to `a ||| 0x80` with
`a = (p-1) + 48` when `p-1 ≥ 16` and `a = p-1` otherwise, and emits no
character byte. -/
theorem C1_set_cursor_command_byte (rs d4 d5 d6 d7 : Bool)
    (cmds chars : List Nat) (p : Nat) (h1 : 1 ≤ p) (h2 : p ≤ 32) :
    (ctrlRun ⟨rs, false, d4, d5, d6, d7, none, cmds, chars⟩ (lcd_pos p)).cmds
      = cmds ++ [((p - 1) + (if 16 ≤ p - 1 then 48 else 0)) ||| 128] ∧
    (ctrlRun ⟨rs, false, d4, d5, d6, d7, none, cmds, chars⟩ (lcd_pos p)).chars
      = chars := by
  have h := ctrlRun_lcd_pos rs d4 d5 d6 d7 cmds chars p
  rw [posCmdByte_valid p h2 h1] at h
  exact h

/-- Witness for C1 at `p = 17`: the emitted byte is `0xC0`. -/
theorem C1_set_cursor_command_byte_witness :
    (ctrlRun ⟨true, false, false, false, false, false, none, [], []⟩
        (lcd_pos 17)).cmds = [] ++ [((17 - 1) + (if 16 ≤ 17 - 1 then 48 else 0)) ||| 128] ∧
    (ctrlRun ⟨true, false, false, false, false, false, none, [], []⟩
        (lcd_pos 17)).chars = [] :=
  C1_set_cursor_command_byte true false false false false [] [] 17
    (by decide) (by decide)

/-- C2 counterexample: `lcd_pos 0` is not a no-op.  The `unsigned char`
argument wraps on the decrement (0 becomes 255), 48 is added mod 256
(giving 47) and the command bit is set, so the byte `0xAF = 175` is
transmitted to the controller. -/
theorem C2_cex_lcd_pos_zero_emits :
    (ctrlRun ctrl0 (lcd_pos 0)).cmds = [175] ∧ [175] ≠ ([] : List Nat) := by
  decide

/-- C2 amended: `lcd_pos` performs no range check at all.  For every
position `p` it sends exactly one command byte, computed by the wrapping
8-bit arithmetic `((p-1 mod 256) + 48 when > 15, mod 256) ||| 0x80`; in
particular `p = 0` emits `0xAF` and `p = 33` emits `0xD0`.  Out-of-range
filtering exists only in the dispatcher's two-byte position path. -/
theorem C2_amended_lcd_pos_always_emits (rs d4 d5 d6 d7 : Bool)
    (cmds chars : List Nat) (p : Nat) :
    (ctrlRun ⟨rs, false, d4, d5, d6, d7, none, cmds, chars⟩ (lcd_pos p)).cmds
      = cmds ++ [posCmdByte p] ∧
    (ctrlRun ⟨rs, false, d4, d5, d6, d7, none, cmds, chars⟩ (lcd_pos p)).chars
      = chars ∧
    posCmdByte 0 = 175 ∧ posCmdByte 33 = 208 := by
  have h := ctrlRun_lcd_pos rs d4 d5 d6 d7 cmds chars p
  exact ⟨h.1, h.2, by decide, by decide⟩

/-- C3 counterexample: on the two-byte input "5X" (bytes 53, 88) the claim
value `digit(byte0) * 10 + digit(byte1) = 50` exceeds 32, so the claim
predicts no `lcd_pos` call; but the code multiplies by 10 only when the
second byte is a digit, computes 5, and does call `lcd_pos 5`. -/
theorem C3_cex_two_byte_value :
    claimPosValue 53 88 = 50 ∧ ¬ (50 : Nat) ≤ 32 ∧
    (device_write 2 (fun _ => 0) [53, 88] 2).events = lcd_pos 5 ∧
    lcd_pos 5 ≠ [] := by
  decide

/-- C3 amended: for every write on the position channel with
`2 ≤ len ≤ 30`, the dispatcher uses only the first two bytes and computes
`value = digit(byte0) * 10 + digit(byte1)` when byte1 is a digit but
`value = digit(byte0)` when it is not (a non-digit byte0 contributing 0),
then calls `lcd_pos value` if and only if `0 < value ≤ 32`; bytes beyond
the second are ignored and `len` is returned. -/
theorem C3_amended_two_byte_dispatch (msg : Nat → Nat) (buffer : List Nat)
    (len : Nat) (h2 : 2 ≤ len) (h30 : len ≤ 30) :
    (device_write 2 msg buffer len).events =
      (if codePosValue (buffer.getD 0 0 % 256) (buffer.getD 1 0 % 256) ≠ 0 ∧
          codePosValue (buffer.getD 0 0 % 256) (buffer.getD 1 0 % 256) ≤ 32
       then lcd_pos (codePosValue (buffer.getD 0 0 % 256) (buffer.getD 1 0 % 256))
       else []) ∧
    (device_write 2 msg buffer len).ret = len ∧
    (∀ buffer2 : List Nat, buffer2.getD 0 0 = buffer.getD 0 0 →
      buffer2.getD 1 0 = buffer.getD 1 0 →
      (device_write 2 msg buffer2 len).events =
        (device_write 2 msg buffer len).events) := by
  have hng : ¬ len > 30 := by omega
  have h0 : ¬ len = 0 := by omega
  have h1 : ¬ len = 1 := by omega
  refine ⟨?_, ?_, ?_⟩
  · simp [device_write, hng, h0, h1]
    split <;> rfl
  · simp [device_write, hng, h0, h1]
    split <;> rfl
  · intro buffer2 e0 e1
    simp at e0 e1
    simp [device_write, hng, h0, h1, e0, e1]

/-- Witness for C3 amended at input "5X": the computed value is 5 and
`lcd_pos 5` is called. -/
theorem C3_amended_two_byte_dispatch_witness :
    (device_write 2 (fun _ => 0) [53, 88] 2).events =
      (if codePosValue 53 88 ≠ 0 ∧ codePosValue 53 88 ≤ 32
       then lcd_pos (codePosValue 53 88) else []) :=
  (C3_amended_two_byte_dispatch (fun _ => 0) [53, 88] 2
    (by decide) (by decide)).1

/-- C4 counterexample: at position 32 the emitted byte is
`(31 + 48) ||| 0x80 = 0xCF = 207`, not `0xEF = 239` as claimed. -/
theorem C4_cex_position_32 :
    (ctrlRun ctrl0 (lcd_pos 32)).cmds = [207] ∧ (207 : Nat) ≠ 239 := by
  decide

/-- C4 amended: the boundary command bytes of `lcd_pos` are
`p=1 → 0x80`, `p=16 → 0x8F`, `p=17 → 0xC0`, and `p=32 → 0xCF`. -/
theorem C4_amended_boundary_bytes :
    (ctrlRun ctrl0 (lcd_pos 1)).cmds = [128] ∧
    (ctrlRun ctrl0 (lcd_pos 16)).cmds = [143] ∧
    (ctrlRun ctrl0 (lcd_pos 17)).cmds = [192] ∧
    (ctrlRun ctrl0 (lcd_pos 32)).cmds = [207] := by
  decide

set_option maxRecDepth 16384 in
/-- C5: from any observer state with RS high (character mode), EN low and
no pending nibble, `lcd_print` transmits as characters exactly the bytes
read strictly before the first zero byte, in input order, capped at 16
reads, and transmits no command bytes.  Concretely, on "HELLO" it sends
exactly the 5 bytes `[72, 69, 76, 76, 79]`; on a 20-byte zero-free buffer
it sends exactly 16 characters and never a 17th. -/
theorem C5_print_sends_prefix (d4 d5 d6 d7 : Bool) (cmds chars : List Nat)
    (buf : Nat → Nat) :
    (ctrlRun ⟨true, false, d4, d5, d6, d7, none, cmds, chars⟩
        (lcd_print buf)).chars =
      chars ++ ((List.range 16).map fun i => buf i % 256).takeWhile
        (fun b => b != 0) ∧
    (ctrlRun ⟨true, false, d4, d5, d6, d7, none, cmds, chars⟩
        (lcd_print buf)).cmds = cmds ∧
    (ctrlRun ⟨true, false, false, false, false, false, none, [], []⟩
        (lcd_print helloBuf)).chars = [72, 69, 76, 76, 79] ∧
    ((ctrlRun ⟨true, false, false, false, false, false, none, [], []⟩
        (lcd_print buf20)).chars).length = 16 := by
  obtain ⟨e4, e5, e6, e7, hrun⟩ :=
    ctrlRun_printAux_run buf 16 0 d4 d5 d6 d7 cmds chars
  refine ⟨?_, ?_, by decide, by decide⟩
  · rw [lcd_print, hrun, List.range_eq_range']
  · rw [lcd_print, hrun]

/-- C6: mode (RS) invariant: every `lcd_byte` transfer leaves RS high
(character mode) whatever its initial level; `lcd_cls` and `lcd_pos` drive
RS low immediately before their `lcd_byte` call (visible in their traces);
hence after `lcd_cls`, after `lcd_pos`, and after `lcd_print` run in
character mode, the RS line is high. -/
theorem C6_rs_mode_invariant :
    (∀ (init : Bool) (b : Nat), levelAfter Pin.RS (lcd_byte b) init = true) ∧
    (∀ init : Bool, levelAfter Pin.RS lcd_cls init = true) ∧
    (∀ (init : Bool) (p : Nat), levelAfter Pin.RS (lcd_pos p) init = true) ∧
    (∀ buf : Nat → Nat, levelAfter Pin.RS (lcd_print buf) true = true) ∧
    lcd_cls = Event.setPin Pin.RS false :: lcd_byte 1 ++ [Event.mdelay 2] ∧
    (∀ p : Nat, lcd_pos p =
      Event.setPin Pin.RS false :: lcd_byte (posCmdByte p)) := by
  refine ⟨fun init b => levelAfter_rs_byte b init, by decide, ?_, ?_, rfl,
    fun p => rfl⟩
  · intro init p
    simp [lcd_pos, lcd_byte, lcd_nibble, levelAfter]
  · intro buf
    exact levelAfter_rs_printAux buf 16 0

/-- C7: every write longer than 30 bytes, on any channel, emits no event
at all (no pin write, no delay, hence no controller transfer) and still
returns the full byte count to the caller. -/
theorem C7_too_long_rejected (minor : Nat) (msg : Nat → Nat)
    (buffer : List Nat) (len : Nat) (h : 30 < len) :
    (device_write minor msg buffer len).events = [] ∧
    (device_write minor msg buffer len).ret = len := by
  simp [device_write, h]

/-- Witness for C7 with a 31-byte payload on the plain channel. -/
theorem C7_too_long_rejected_witness :
    (device_write 0 (fun _ => 0) (List.replicate 31 65) 31).events = [] ∧
    (device_write 0 (fun _ => 0) (List.replicate 31 65) 31).ret = 31 :=
  C7_too_long_rejected 0 (fun _ => 0) (List.replicate 31 65) 31 (by decide)

set_option maxRecDepth 16384 in
/-- C8: for every 4-bit value the pin writes of `lcd_nibble` are, in
order: EN raised, DB4..DB7 driven to bits 0..3 (DB4 the least
significant), EN dropped; and for every 8-bit value `lcd_byte` is two
`lcd_nibble` transfers, the high nibble `b >>> 4` first and then the low
nibble `b % 16`, followed by the 40 µs wait and RS set high. -/
theorem C8_transfer_order :
    (∀ v : Nat, v < 16 →
      pinWrites (lcd_nibble v) =
        [(Pin.EN, true), (Pin.DB4, v.testBit 0), (Pin.DB5, v.testBit 1),
         (Pin.DB6, v.testBit 2), (Pin.DB7, v.testBit 3), (Pin.EN, false)]) ∧
    (∀ b : Nat, b < 256 →
      lcd_byte b = lcd_nibble (b >>> 4) ++ lcd_nibble (b % 16) ++
        [Event.udelay 40, Event.setPin Pin.RS true]) := by
  constructor
  · decide
  · decide

/-- Witness for C8 at `v = 5` and `b = 0xAB`. -/
theorem C8_transfer_order_witness :
    pinWrites (lcd_nibble 5) =
      [(Pin.EN, true), (Pin.DB4, Nat.testBit 5 0), (Pin.DB5, Nat.testBit 5 1),
       (Pin.DB6, Nat.testBit 5 2), (Pin.DB7, Nat.testBit 5 3),
       (Pin.EN, false)] ∧
    lcd_byte 171 = lcd_nibble (171 >>> 4) ++ lcd_nibble (171 % 16) ++
      [Event.udelay 40, Event.setPin Pin.RS true] :=
  ⟨C8_transfer_order.1 5 (by decide), C8_transfer_order.2 171 (by decide)⟩

/-- C9: for every plain-channel write of length `len ≤ 30`, the new
`message` contents hold the payload bytes at indices `0..len-1` and a zero
terminator at index `len`, all other indices are untouched, and the store
list has exactly `len + 1` entries whose indices are all at most 30 (so
every store is inside the 32-byte array). -/
theorem C9_plain_channel_stores (msg : Nat → Nat) (buffer : List Nat)
    (len : Nat) (hlen : len ≤ 30) :
    (∀ i, i < len →
      (device_write 0 msg buffer len).msg i = buffer.getD i 0 % 256) ∧
    (device_write 0 msg buffer len).msg len = 0 ∧
    (∀ i, len < i → (device_write 0 msg buffer len).msg i = msg i) ∧
    (∀ s ∈ memcpyStores buffer len, s.1 ≤ 30) ∧
    (memcpyStores buffer len).length = len + 1 := by
  have hng : ¬ len > 30 := by omega
  have hmsg : (device_write 0 msg buffer len).msg =
      applyStores msg (memcpyStores buffer len) := by
    simp [device_write, hng]
  have heval : ∀ i, applyStores msg (memcpyStores buffer len) i =
      if i = len then 0
      else if i < len then buffer.getD i 0 % 256 else msg i := by
    intro i
    rw [memcpyStores, applyStores_append]
    by_cases h : i = len
    · simp [applyStores, h]
    · have : applyStores
          (applyStores msg ((List.range len).map fun j => (j, buffer.getD j 0 % 256)))
          [(len, 0)] i =
          applyStores msg ((List.range len).map fun j => (j, buffer.getD j 0 % 256)) i := by
        simp [applyStores, h]
      rw [this, applyStores_range, if_neg h]
  refine ⟨?_, ?_, ?_, ?_, ?_⟩
  · intro i hi
    rw [hmsg, heval]
    have : ¬ i = len := by omega
    simp [this, hi]
  · rw [hmsg, heval]
    simp
  · intro i hi
    rw [hmsg, heval]
    have h1 : ¬ i = len := by omega
    have h2 : ¬ i < len := by omega
    simp [h1, h2]
  · intro s hs
    rw [memcpyStores] at hs
    rcases List.mem_append.mp hs with h | h
    · obtain ⟨j, hj, rfl⟩ := List.mem_map.mp h
      have := List.mem_range.mp hj
      omega
    · rw [List.mem_singleton] at h
      subst h
      simpa using hlen
  · simp [memcpyStores]

/-- Witness for C9 with payload `[10, 20]`: byte 10 lands at index 0,
byte 20 at index 1, the terminator at index 2, index 3 is untouched. -/
theorem C9_plain_channel_stores_witness :
    (device_write 0 (fun _ => 7) [10, 20] 2).msg 0 = 10 ∧
    (device_write 0 (fun _ => 7) [10, 20] 2).msg 2 = 0 ∧
    (device_write 0 (fun _ => 7) [10, 20] 2).msg 3 = 7 :=
  ⟨by
    have h := (C9_plain_channel_stores (fun _ => 7) [10, 20] 2 (by decide)).1
      0 (by decide)
    simpa using h,
   (C9_plain_channel_stores (fun _ => 7) [10, 20] 2 (by decide)).2.1,
   (C9_plain_channel_stores (fun _ => 7) [10, 20] 2 (by decide)).2.2.1
     3 (by decide)⟩

/-- C10: `lcd_nibble` never writes the RS line (its level is preserved and
every pin write targets EN or a data line) and it returns with EN driven
low. -/
theorem C10_nibble_frame (v : Nat) (init : Bool) :
    levelAfter Pin.RS (lcd_nibble v) init = init ∧
    levelAfter Pin.EN (lcd_nibble v) init = false ∧
    ((pinWrites (lcd_nibble v)).all fun pw =>
      pw.1 == Pin.EN || pw.1 == Pin.DB4 || pw.1 == Pin.DB5 ||
        pw.1 == Pin.DB6 || pw.1 == Pin.DB7) = true := by
  refine ⟨?_, ?_, ?_⟩ <;> simp [lcd_nibble, levelAfter, pinWrites]
